import Mathlib

/-!
Verification of the feature-store client logic of the hopsworks-cloud-sdk
repository, as a shallow embedding in Lean.

The embedding follows the Python sources:

* `hops/featurestore_impl/util/fs_utils.py` — table naming, latest-version
  lookup, metadata validation;
* `hops/featurestore_impl/core.py` — metadata cache, id lookups, result-column
  renaming, partitions operation;
* `hops/featurestore.py` — the public operations and their
  try-with-cache / refresh-and-retry pattern;
* `hops/featurestore_impl/online_featurestore.py` — extraction of the online
  feature store password and user from a storage connector;
* `hops/featurestore_impl/exceptions/exceptions.py` — the exception taxonomy.

Machine strings are modelled through their character lists; Python exceptions
become an explicit error type threaded through `Except`; the process-wide
metadata cache becomes explicit state passing.  Functions of the repository
that are referenced from the sources but whose defining module is not part of
the source tree (the query planner, the constants module) are modelled from
the specification and marked as such in their doc comments.
-/

namespace HopsworksSdk

/-! ## Python exceptions (exceptions.py) -/

/-- The exceptions of `exceptions.py` that the embedded operations can raise,
together with the built-in Python exceptions `ValueError`, `AttributeError`
and `TypeError` which the embedded code paths can produce. -/
inductive PyErr where
  | featuregroupNotFound
  | trainingDatasetNotFound
  | featureNotFound
  | inferJoinKeyError
  | cannotGetPartitionsOfOnDemandFeatureGroup
  | onlineFeaturestorePasswordOrUserNotFound
  | statisticsComputationError
  | valueError
  | attributeError
  | typeError
deriving DecidableEq

/-! ## Generic string helpers

Python string primitives used by the sources, modelled over character lists
so that every definition is executable by kernel reduction. -/

/-- Decimal digit to character, the rendering used by Python `str` on a
non-negative integer digit. -/
def digitToChar (d : Nat) : Char :=
  match d with
  | 0 => '0' | 1 => '1' | 2 => '2' | 3 => '3' | 4 => '4'
  | 5 => '5' | 6 => '6' | 7 => '7' | 8 => '8' | _ => '9'

/-- Inverse of `digitToChar` on decimal digit characters. -/
def charToDigit (c : Char) : Nat :=
  match c with
  | '0' => 0 | '1' => 1 | '2' => 2 | '3' => 3 | '4' => 4
  | '5' => 5 | '6' => 6 | '7' => 7 | '8' => 8 | _ => 9

/-- Least-significant-first decimal digits of a natural number; the `fuel`
argument makes the recursion structural, `decDigitsRev` supplies enough
fuel for the digits of `n`. -/
def decDigitsRevAux : Nat → Nat → List Nat
  | 0, n => [n]
  | fuel + 1, n => if n < 10 then [n] else n % 10 :: decDigitsRevAux fuel (n / 10)

/-- Least-significant-first decimal digits of a natural number. -/
def decDigitsRev (n : Nat) : List Nat :=
  decDigitsRevAux n n

/-- Value of a least-significant-first decimal digit list. -/
def fromDigitsRev : List Nat → Nat
  | [] => 0
  | d :: ds => d + 10 * fromDigitsRev ds

/-- Decimal string of a natural number: the embedding of Python `str(n)`
for a non-negative integer `n`. -/
def natToString (n : Nat) : String :=
  String.mk ((decDigitsRev n).reverse.map digitToChar)

/-- Embedding of Python `s.split(sep)` for a one-character separator `sep`,
over the character list of `s`. -/
def splitOnChar (sep : Char) : List Char → List (List Char)
  | [] => [[]]
  | c :: rest =>
    if c = sep then [] :: splitOnChar sep rest
    else
      match splitOnChar sep rest with
      | [] => [[c]]
      | h :: t => (c :: h) :: t

/-- Embedding of the Python substring test `pat in s` over character lists. -/
def containsSub (pat : List Char) : List Char → Bool
  | [] => pat.isEmpty
  | c :: rest => pat.isPrefixOf (c :: rest) || containsSub pat rest

/-- Embedding of Python `s.replace(pat, "")` — delete every occurrence of
`pat` in `s`, scanning left to right without overlap.  The `fuel` argument
makes the recursion structural; `removeAll` supplies `s.length` fuel, which
is enough because every step consumes at least one character. -/
def removeAllAux (pat : List Char) : Nat → List Char → List Char
  | _, [] => []
  | 0, s => s
  | fuel + 1, c :: rest =>
    if !pat.isEmpty && pat.isPrefixOf (c :: rest) then
      removeAllAux pat fuel ((c :: rest).drop pat.length)
    else
      c :: removeAllAux pat fuel rest

/-- Embedding of Python `s.replace(pat, "")`. -/
def removeAll (pat s : List Char) : List Char :=
  removeAllAux pat s.length s

/-! ## Data model

The metadata entities, following `dao/featuregroups/featuregroup.py`,
`dao/settings/featurestore_settings.py` and, for the per-feature attributes
(whose dao module is not part of the source tree), the specification's data
model: a feature has a name, a type tag, a primary flag and a partition
flag.  Only the settings fields the embedded operations read are kept. -/

/-- A single feature of a feature group.  Modelled from the spec: the
feature dao module is not under the source tree; the spec gives a feature a
name, a source-system type tag, a `primary` flag and a `partition` flag. -/
structure Feature where
  name : String
  ftype : String
  primary : Bool
  isPartition : Bool
deriving DecidableEq

/-- A feature group (dao/featuregroups/featuregroup.py): name, version, id,
feature-group type tag and the owned features. -/
structure Featuregroup where
  name : String
  version : Nat
  id : Nat
  featuregroup_type : String
  features : List Feature
deriving DecidableEq

/-- A training dataset entity, restricted to the fields the embedded
operations read: name, version and id. -/
structure TrainingDataset where
  name : String
  version : Nat
  id : Nat
deriving DecidableEq

/-- The feature store settings (dao/settings/featurestore_settings.py),
restricted to the two type tags the embedded operations read. -/
structure FeaturestoreSettings where
  cached_featuregroup_type : String
  on_demand_featuregroup_type : String
deriving DecidableEq

/-- A metadata snapshot: the feature groups and training datasets are the
values of the snapshot's name-to-entity mappings, in iteration order. -/
structure FeaturestoreMetadata where
  featuregroups : List Featuregroup
  training_datasets : List TrainingDataset
  settings : FeaturestoreSettings
deriving DecidableEq

/-! ## fs_utils.py -/

/-- Embedding of `fs_utils._get_table_name`: the Hive table name of a
feature group and version, `featuregroup + "_" + str(version)`. -/
def get_table_name (featuregroup : String) (version : Nat) : String :=
  featuregroup ++ "_" ++ natToString version

/-- Embedding of `fs_utils._do_get_latest_featuregroup_version`: the maximum
of the versions of the feature groups whose name matches, `0` when none
matches.  The nonempty case renders Python `max(versions)` as a left fold
of `Nat.max` over the list. -/
def do_get_latest_featuregroup_version (featuregroup_name : String)
    (featurestore_metadata : FeaturestoreMetadata) : Nat :=
  let matched := featurestore_metadata.featuregroups.filter
    (fun fg => fg.name == featuregroup_name)
  let versions := matched.map (fun fg => fg.version)
  match versions with
  | [] => 0
  | v :: vs => vs.foldl Nat.max v

/-! ## core.py — metadata cache -/

/-- The process-wide cache state of `core.py`: the module-level
`metadata_cache` slot, plus a counter of remote metadata fetches so that
theorems can speak about how often the remote service is contacted. -/
structure CacheState where
  cache : Option FeaturestoreMetadata
  fetchCount : Nat
deriving DecidableEq

/-- Embedding of `core._get_featurestore_metadata`: when the cache is empty
or `update_cache` is set, fetch a fresh snapshot (modelled by the `fetch`
function, standing for `rest_rpc._get_featurestore_metadata` plus
`FeaturestoreMetadata` parsing) and replace the cached value; otherwise
return the cached snapshot unchanged. -/
def get_featurestore_metadata (fetch : String → FeaturestoreMetadata)
    (featurestore : String) (update_cache : Bool) (s : CacheState) :
    FeaturestoreMetadata × CacheState :=
  match s.cache, update_cache with
  | none, _ =>
    let m := fetch featurestore
    (m, ⟨some m, s.fetchCount + 1⟩)
  | some _, true =>
    let m := fetch featurestore
    (m, ⟨some m, s.fetchCount + 1⟩)
  | some m, false => (m, s)

/-! ## core.py — result-column renaming in `_run_and_log_sql` -/

/-- Embedding of the column renaming applied to the result dataframe in
`core._run_and_log_sql`:
`column.split('.')[1] if '.' in column else column`. -/
def renameResultColumn (column : String) : String :=
  if column.data.contains '.' then String.mk ((splitOnChar '.' column.data)[1]!)
  else column

/-- The renaming `core._run_and_log_sql` applies to the full list of result
column names. -/
def run_and_log_sql_columns (columns : List String) : List String :=
  columns.map renameResultColumn

/-- Stated from the spec's words, for comparison with `renameResultColumn`:
replace a column name containing a dot by the suffix after its last dot,
leave other column names unchanged. -/
def specStripAfterLastDot (column : String) : String :=
  if column.data.contains '.' then String.mk ((splitOnChar '.' column.data).getLast!)
  else column

/-! ## core.py — id lookups -/

/-- Embedding of the lookup loop of `core._get_featuregroup_id`: the first
feature group of the snapshot whose name and version both match yields its
id, otherwise `FeaturegroupNotFound` is raised.  The (always-stale-checked)
cache refresh that precedes the loop in the source only selects which
snapshot the loop runs on; the lookup is stated against that snapshot. -/
def get_featuregroup_id (metadata : FeaturestoreMetadata)
    (featuregroup_name : String) (featuregroup_version : Nat) : Except PyErr Nat :=
  match metadata.featuregroups.find?
      (fun fg => fg.name == featuregroup_name && fg.version == featuregroup_version) with
  | some fg => .ok fg.id
  | none => .error .featuregroupNotFound

/-- Embedding of the lookup loop of `core._get_training_dataset_id`,
analogous to `get_featuregroup_id` with `TrainingDatasetNotFound`. -/
def get_training_dataset_id (metadata : FeaturestoreMetadata)
    (training_dataset_name : String) (training_dataset_version : Nat) : Except PyErr Nat :=
  match metadata.training_datasets.find?
      (fun td => td.name == training_dataset_name && td.version == training_dataset_version) with
  | some td => .ok td.id
  | none => .error .trainingDatasetNotFound

/-! ## core.py — partitions operation -/

/-- Modelled from the spec: `query_planner._find_featuregroup` is referenced
by `core.py` but the query-planner module is not part of the source tree.
Per the spec it looks a feature group up directly by `(name, version)` and
fails with the not-found error when absent. -/
def find_featuregroup (featuregroups : List Featuregroup)
    (featuregroup_name : String) (featuregroup_version : Nat) : Except PyErr Featuregroup :=
  match featuregroups.find?
      (fun fg => fg.name == featuregroup_name && fg.version == featuregroup_version) with
  | some fg => .ok fg
  | none => .error .featuregroupNotFound

/-- Embedding of `core._do_get_featuregroup_partitions`: find the feature
group; raise `CannotGetPartitionsOfOnDemandFeatureGroup` when its type tag
is the settings' on-demand type; otherwise produce the `SHOW PARTITIONS`
statement handed to the executor. -/
def do_get_featuregroup_partitions (featuregroup_name : String)
    (featurestore_metadata : FeaturestoreMetadata) (featuregroup_version : Nat) :
    Except PyErr String :=
  match find_featuregroup featurestore_metadata.featuregroups
      featuregroup_name featuregroup_version with
  | .error e => .error e
  | .ok fg =>
    if fg.featuregroup_type == featurestore_metadata.settings.on_demand_featuregroup_type then
      .error .cannotGetPartitionsOfOnDemandFeatureGroup
    else
      .ok ("SHOW PARTITIONS " ++ get_table_name featuregroup_name featuregroup_version)

/-! ## featurestore.py — the try-with-cache / refresh-and-retry pattern -/

/-- Embedding of the retry shape shared by `featurestore.get_feature`,
`get_features`, `get_featuregroup` and `get_featuregroup_partitions`:
attempt the operation with the metadata obtained without a cache update;
on any exception, force a cache update and attempt exactly once more,
returning that second outcome unchanged.  `op` stands for the corresponding
`core._do_*` call with all its other arguments fixed. -/
def tryWithCachedThenRefetch {α : Type} (op : FeaturestoreMetadata → Except PyErr α)
    (fetch : String → FeaturestoreMetadata) (featurestore : String) (s : CacheState) :
    Except PyErr α × CacheState :=
  let r1 := get_featurestore_metadata fetch featurestore false s
  match op r1.1 with
  | .ok a => (.ok a, r1.2)
  | .error _ =>
    let r2 := get_featurestore_metadata fetch featurestore true r1.2
    (op r2.1, r2.2)

/-- Embedding of `featurestore.update_featuregroup_stats`: the same retry
shape, except that when the second attempt also raises, the second
exception is replaced by `StatisticsComputationError`. -/
def update_featuregroup_stats (op : FeaturestoreMetadata → Except PyErr Unit)
    (fetch : String → FeaturestoreMetadata) (featurestore : String) (s : CacheState) :
    Except PyErr Unit × CacheState :=
  let r1 := get_featurestore_metadata fetch featurestore false s
  match op r1.1 with
  | .ok a => (.ok a, r1.2)
  | .error _ =>
    let r2 := get_featurestore_metadata fetch featurestore true r1.2
    match op r2.1 with
    | .ok a => (.ok a, r2.2)
    | .error _ => (.error .statisticsComputationError, r2.2)

/-! ## online_featurestore.py -/

/-- The pattern `password=` searched for in the connector arguments. -/
def pwPat : List Char := "password=".data

/-- The pattern `user=` searched for in the connector arguments. -/
def userPat : List Char := "user=".data

/-- Embedding of
`online_featurestore._get_online_feature_store_password_and_user`: split the
connector's `arguments` string on commas (the comma delimiter constant lives
in the `hops.constants` module, which is not part of the source tree; it is
taken to be a comma per the spec's words), scan the fragments keeping, for
each of the two patterns, the last fragment containing it with all its
occurrences deleted, and raise when either result is empty. -/
def get_online_feature_store_password_and_user (arguments : String) :
    Except PyErr (String × String) :=
  let args := splitOnChar ',' arguments.data
  let pu := args.foldl
    (fun (acc : List Char × List Char) arg =>
      (if containsSub pwPat arg then removeAll pwPat arg else acc.1,
       if containsSub userPat arg then removeAll userPat arg else acc.2))
    ([], [])
  if pu.1.isEmpty || pu.2.isEmpty then
    .error .onlineFeaturestorePasswordOrUserNotFound
  else
    .ok (String.mk pu.1, String.mk pu.2)

/-- The claim's description of the extraction, for comparison with the loop:
the last fragment containing the pattern, with every occurrence of the
pattern removed, and the empty string when no fragment contains it. -/
def lastExtract (pat : List Char) (args : List (List Char)) : List Char :=
  match args.reverse.find? (containsSub pat) with
  | some a => removeAll pat a
  | none => []

/-! ## fs_utils.py — metadata validation, and its call in create_featuregroup

Python is dynamically typed, so the argument-order mismatch between
`featurestore.create_featuregroup` (which calls
`fs_utils._validate_metadata(featuregroup, spark_df.dtypes, description)`)
and `fs_utils._validate_metadata(name, description, featurestore_settings)`
is only observable at run time.  The values that can reach the two
dynamically-typed parameters are modelled by `PyVal`, and Python attribute
access by a lookup that raises `AttributeError` on any value that is not a
settings object. -/

/-- The settings interface `_validate_metadata` expects of its third
argument: a compiled name regex (modelled by its match predicate) and the
two length bounds. -/
structure ValidationSettings where
  featurestore_regex : String → Bool
  entity_name_max_len : Nat
  entity_description_max_len : Nat

/-- A dynamically-typed Python value that can reach the `description` or
`featurestore_settings` parameter of `_validate_metadata`: a string, a
dataframe `dtypes` list, or a settings object. -/
inductive PyVal where
  | pyStr (s : String)
  | pyDtypes (dtypes : List (String × String))
  | pySettings (st : ValidationSettings)

/-- Python attribute access `v.featurestore_regex`: an `AttributeError`
unless `v` is a settings object. -/
def getattrFeaturestoreRegex : PyVal → Except PyErr (String → Bool)
  | .pySettings st => .ok st.featurestore_regex
  | _ => .error .attributeError

/-- Python attribute access `v.entity_description_max_len`: an
`AttributeError` unless `v` is a settings object. -/
def getattrEntityDescriptionMaxLen : PyVal → Except PyErr Nat
  | .pySettings st => .ok st.entity_description_max_len
  | _ => .error .attributeError

/-- Python truthiness of the values that can reach the `description`
parameter. -/
def pyTruthy : PyVal → Bool
  | .pyStr s => !s.isEmpty
  | .pyDtypes l => !l.isEmpty
  | .pySettings _ => true

/-- Python `len` of the values that can reach the `description` parameter;
a settings object has no length. -/
def pyLen : PyVal → Except PyErr Nat
  | .pyStr s => .ok s.length
  | .pyDtypes l => .ok l.length
  | .pySettings _ => .error .typeError

/-- Embedding of `fs_utils._validate_metadata(name, description,
featurestore_settings)`: raise `ValueError` when the settings regex does not
match the name, then, when the description is truthy, raise `ValueError`
when it is longer than the settings bound. -/
def validate_metadata (name : String) (description : PyVal)
    (featurestore_settings : PyVal) : Except PyErr Unit :=
  match getattrFeaturestoreRegex featurestore_settings with
  | .error e => .error e
  | .ok rx =>
    if !(rx name) then .error .valueError
    else if pyTruthy description then
      match getattrEntityDescriptionMaxLen featurestore_settings with
      | .error e => .error e
      | .ok maxLen =>
        match pyLen description with
        | .error e => .error e
        | .ok dlen => if dlen > maxLen then .error .valueError else .ok ()
    else .ok ()

/-- The validation call exactly as `featurestore.create_featuregroup` makes
it: `fs_utils._validate_metadata(featuregroup, spark_df.dtypes,
description)` — the dataframe's `dtypes` lands in the `description`
parameter and the description string lands in the `featurestore_settings`
parameter. -/
def create_featuregroup_validation_call (featuregroup : String)
    (dtypes : List (String × String)) (description : String) : Except PyErr Unit :=
  validate_metadata featuregroup (.pyDtypes dtypes) (.pyStr description)

/-! ## Query planner — join-key inference

The query-planner package (`hops/featurestore_impl/query_planner/`) is
referenced throughout `core.py` but is not part of the source tree, so the
join-key inference is modelled from the specification. -/

/-- The names of the features marked primary in a feature group. -/
def primaryFeatureNames (fg : Featuregroup) : List String :=
  (fg.features.filter (fun f => f.primary)).map (fun f => f.name)

/-- Modelled from the spec: the query-planner module is not under the
source tree.  Per the spec, with no explicit join key the planner infers one
by finding a feature name that is marked primary in every participating
feature group (an element of the intersection of the primary-feature-name
sets) and fails with `InferJoinKeyError` when the intersection is empty. -/
def inferJoinKey (featuregroups : List Featuregroup) : Except PyErr String :=
  match featuregroups with
  | [] => .error .inferJoinKeyError
  | fg :: rest =>
    match (primaryFeatureNames fg).filter
        (fun n => rest.all (fun g => (primaryFeatureNames g).contains n)) with
    | [] => .error .inferJoinKeyError
    | n :: _ => .ok n

/-! ## Sample data

Concrete entities used to instantiate the theorems, following the worked
example of the sources' doc strings (`trx_summary_features`,
`trx_graph_summary_features` with `cust_id` as the shared primary key). -/

/-- The sample feature store name. -/
def storeA : String := "demo_featurestore"

/-- The `cust_id` feature, primary in both sample feature groups. -/
def featCustId : Feature := ⟨"cust_id", "int", true, false⟩

/-- The `max_trx` feature of the cached sample feature group. -/
def featMaxTrx : Feature := ⟨"max_trx", "float", false, false⟩

/-- The `pagerank` feature of the on-demand sample feature group. -/
def featPagerank : Feature := ⟨"pagerank", "float", false, false⟩

/-- The sample settings: the two feature-group type tags. -/
def sampleSettings : FeaturestoreSettings :=
  ⟨"cachedFeaturegroupDTO", "onDemandFeaturegroupDTO"⟩

/-- A cached sample feature group. -/
def fgTrxSummary : Featuregroup :=
  ⟨"trx_summary_features", 1, 7, "cachedFeaturegroupDTO", [featCustId, featMaxTrx]⟩

/-- An on-demand sample feature group. -/
def fgTrxGraph : Featuregroup :=
  ⟨"trx_graph_summary_features", 1, 8, "onDemandFeaturegroupDTO", [featCustId, featPagerank]⟩

/-- A sample training dataset. -/
def tdSample : TrainingDataset := ⟨"team_position_prediction", 1, 3⟩

/-- The sample metadata snapshot. -/
def sampleMetadata : FeaturestoreMetadata :=
  ⟨[fgTrxSummary, fgTrxGraph], [tdSample], sampleSettings⟩

/-- An empty metadata snapshot, standing for a stale cache that no longer
contains the requested entities. -/
def emptyMetadata : FeaturestoreMetadata := ⟨[], [], sampleSettings⟩

/-- A feature-group name present in no sample snapshot. -/
def missingFgName : String := "no_such_featuregroup"

/-- A sample feature group name. -/
def sampleFgName : String := "trx_summary_features"

/-- A column name with two dots, as produced by a qualified sub-select. -/
def dotDotName : String := "a.b.c"

/-- Sample online storage-connector arguments. -/
def connectorArgs : String := "ssl=true,password=secret,user=alice"

/-- The password of the sample connector arguments. -/
def secretStr : String := "secret"

/-- The user of the sample connector arguments. -/
def aliceStr : String := "alice"

/-- A settings object whose name regex rejects every name. -/
def alwaysFalseSettings : ValidationSettings := ⟨fun _ => false, 255, 10000⟩

/-- The join key of the sample feature groups. -/
def joinKeyX : String := "cust_id"

/-- Sample feature group with primary keys containing only the join key. -/
def fgJoinA : Featuregroup :=
  ⟨"fg_join_a", 1, 21, "cachedFeaturegroupDTO", [featCustId, featMaxTrx]⟩

/-- Sample feature group with two primary keys including the join key. -/
def fgJoinB : Featuregroup :=
  ⟨"fg_join_b", 1, 22, "cachedFeaturegroupDTO",
    [featCustId, ⟨"snapshot_date", "string", true, true⟩, featPagerank]⟩

/-! ## Theorems -/

/-! ### Decimal rendering -/

theorem charToDigit_digitToChar (d : Nat) (h : d < 10) :
    charToDigit (digitToChar d) = d := by
  interval_cases d <;> rfl

theorem fromDigitsRev_decDigitsRevAux :
    ∀ fuel n, n ≤ fuel → fromDigitsRev (decDigitsRevAux fuel n) = n := by
  intro fuel
  induction fuel with
  | zero =>
    intro n h
    have : n = 0 := Nat.le_zero.mp h
    subst this
    simp [decDigitsRevAux, fromDigitsRev]
  | succ f ih =>
    intro n h
    by_cases h10 : n < 10
    · simp [decDigitsRevAux, h10, fromDigitsRev]
    · have hrec := ih (n / 10) (by omega)
      simp only [decDigitsRevAux, h10, if_false, fromDigitsRev, hrec]
      omega

theorem decDigitsRevAux_lt :
    ∀ fuel n, n ≤ fuel → ∀ d ∈ decDigitsRevAux fuel n, d < 10 := by
  intro fuel
  induction fuel with
  | zero =>
    intro n h d hd
    have : n = 0 := Nat.le_zero.mp h
    subst this
    simp [decDigitsRevAux] at hd
    omega
  | succ f ih =>
    intro n h d hd
    by_cases h10 : n < 10
    · simp [decDigitsRevAux, h10] at hd
      omega
    · simp only [decDigitsRevAux, h10, if_false, List.mem_cons] at hd
      rcases hd with hd | hd
      · omega
      · exact ih (n / 10) (by omega) d hd

theorem fromDigitsRev_decDigitsRev (n : Nat) :
    fromDigitsRev (decDigitsRev n) = n :=
  fromDigitsRev_decDigitsRevAux n n (Nat.le_refl n)

theorem decDigitsRev_lt (n : Nat) : ∀ d ∈ decDigitsRev n, d < 10 :=
  decDigitsRevAux_lt n n (Nat.le_refl n)

theorem natToString_injective {a b : Nat} (h : natToString a = natToString b) :
    a = b := by
  have hdata : (decDigitsRev a).reverse.map digitToChar =
      (decDigitsRev b).reverse.map digitToChar := congrArg String.data h
  have hback := congrArg (List.map charToDigit) hdata
  rw [List.map_map, List.map_map] at hback
  have ha : (decDigitsRev a).reverse.map (charToDigit ∘ digitToChar) =
      (decDigitsRev a).reverse.map id := by
    apply List.map_congr_left
    intro d hd
    exact charToDigit_digitToChar d (decDigitsRev_lt a d (List.mem_reverse.mp hd))
  have hb : (decDigitsRev b).reverse.map (charToDigit ∘ digitToChar) =
      (decDigitsRev b).reverse.map id := by
    apply List.map_congr_left
    intro d hd
    exact charToDigit_digitToChar d (decDigitsRev_lt b d (List.mem_reverse.mp hd))
  rw [ha, hb, List.map_id, List.map_id, List.reverse_inj] at hback
  calc a = fromDigitsRev (decDigitsRev a) := (fromDigitsRev_decDigitsRev a).symm
    _ = fromDigitsRev (decDigitsRev b) := by rw [hback]
    _ = b := fromDigitsRev_decDigitsRev b

/-- Claim C8: for every feature group name `n` and version `v`, the physical
table name computed by `_get_table_name` is the concatenation of `n`, an
underscore and the decimal string of `v`; it is deterministic (it is a pure
function of its arguments) and, for a fixed `n`, injective over distinct
versions. -/
theorem get_table_name_spec (n : String) (v v1 v2 : Nat) :
    get_table_name n v = n ++ "_" ++ natToString v ∧
    (v1 ≠ v2 → get_table_name n v1 ≠ get_table_name n v2) := by
  refine ⟨rfl, ?_⟩
  intro hne heq
  apply hne
  have hd := congrArg String.data heq
  simp only [get_table_name, String.data_append, List.append_assoc] at hd
  have h1 : (natToString v1).data = (natToString v2).data :=
    List.append_cancel_left (List.append_cancel_left hd)
  exact natToString_injective (String.ext h1)

theorem get_table_name_spec_witness :
    (1 : Nat) ≠ 2 ∧ get_table_name sampleFgName 1 ≠ get_table_name sampleFgName 2 :=
  ⟨by decide, (get_table_name_spec sampleFgName 0 1 2).2 (by decide)⟩

/-! ### Metadata cache -/

/-- Claim C3: when the cache is empty or an update is requested,
`_get_featurestore_metadata` fetches a fresh snapshot and replaces the
cached value with it; in every other case it returns the currently cached
snapshot and leaves the cache unchanged — regardless of which store name is
being requested (the second conjunct holds for every cached snapshot `m`,
in particular one fetched for a different store). -/
theorem get_featurestore_metadata_spec (fetch : String → FeaturestoreMetadata)
    (featurestore : String) (update_cache : Bool) (s : CacheState) :
    ((s.cache = none ∨ update_cache = true) →
      get_featurestore_metadata fetch featurestore update_cache s =
        (fetch featurestore, ⟨some (fetch featurestore), s.fetchCount + 1⟩)) ∧
    (∀ m, s.cache = some m → update_cache = false →
      get_featurestore_metadata fetch featurestore update_cache s = (m, s)) := by
  obtain ⟨c, fc⟩ := s
  cases c <;> cases update_cache <;>
    simp [get_featurestore_metadata]

theorem get_featurestore_metadata_spec_witness :
    get_featurestore_metadata (fun _ => sampleMetadata) storeA true
        ⟨some emptyMetadata, 5⟩ =
      (sampleMetadata, ⟨some sampleMetadata, 6⟩) :=
  (get_featurestore_metadata_spec (fun _ => sampleMetadata) storeA true
    ⟨some emptyMetadata, 5⟩).1 (Or.inr rfl)

/-! ### Latest feature group version -/

theorem foldl_max_eq_or_mem :
    ∀ (vs : List Nat) (v : Nat), vs.foldl Nat.max v = v ∨ vs.foldl Nat.max v ∈ vs := by
  intro vs
  induction vs with
  | nil => intro v; left; rfl
  | cons w ws ih =>
    intro v
    rw [List.foldl_cons]
    rcases ih (Nat.max v w) with h | h
    · rw [h]
      rcases Nat.le_total v w with hvw | hvw
      · right
        have hmax : Nat.max v w = w := Nat.max_eq_right hvw
        rw [hmax]
        exact List.mem_cons_self w ws
      · left
        exact Nat.max_eq_left hvw
    · right; exact List.mem_cons_of_mem w h

theorem le_foldl_max_init :
    ∀ (vs : List Nat) (v : Nat), v ≤ vs.foldl Nat.max v := by
  intro vs
  induction vs with
  | nil => intro v; exact Nat.le_refl v
  | cons w ws ih =>
    intro v
    rw [List.foldl_cons]
    exact Nat.le_trans (Nat.le_max_left v w) (ih (Nat.max v w))

theorem le_foldl_max_of_mem :
    ∀ (vs : List Nat) (v x : Nat), x ∈ vs → x ≤ vs.foldl Nat.max v := by
  intro vs
  induction vs with
  | nil => intro v x hx; cases hx
  | cons w ws ih =>
    intro v x hx
    rw [List.foldl_cons]
    rcases List.mem_cons.mp hx with rfl | hx
    · exact Nat.le_trans (Nat.le_max_right v x) (le_foldl_max_init ws (Nat.max v x))
    · exact ih (Nat.max v w) x hx

/-- Claim C9: `_do_get_latest_featuregroup_version` returns the maximum of
the versions of the snapshot's feature groups whose name equals the given
name, and `0` when no feature group with that name exists. -/
theorem do_get_latest_featuregroup_version_spec (name : String)
    (md : FeaturestoreMetadata) :
    ((∃ fg ∈ md.featuregroups, fg.name = name) →
      (∃ fg ∈ md.featuregroups, fg.name = name ∧
        fg.version = do_get_latest_featuregroup_version name md) ∧
      (∀ fg ∈ md.featuregroups, fg.name = name →
        fg.version ≤ do_get_latest_featuregroup_version name md)) ∧
    ((¬ ∃ fg ∈ md.featuregroups, fg.name = name) →
      do_get_latest_featuregroup_version name md = 0) := by
  simp only [do_get_latest_featuregroup_version]
  cases hv : (md.featuregroups.filter (fun fg => fg.name == name)).map
      (fun fg => fg.version) with
  | nil =>
    constructor
    · intro hex
      exfalso
      obtain ⟨fg, hmem, hname⟩ := hex
      have hf : fg ∈ md.featuregroups.filter (fun fg => fg.name == name) :=
        List.mem_filter.mpr ⟨hmem, by simp [hname]⟩
      have : fg.version ∈ (md.featuregroups.filter
          (fun fg => fg.name == name)).map (fun fg => fg.version) :=
        List.mem_map_of_mem _ hf
      rw [hv] at this
      cases this
    · intro _; rfl
  | cons v vs =>
    constructor
    · intro _
      constructor
      · have hm : vs.foldl Nat.max v = v ∨ vs.foldl Nat.max v ∈ vs :=
          foldl_max_eq_or_mem vs v
        have hmem : vs.foldl Nat.max v ∈ v :: vs := by
          rcases hm with h | h
          · rw [h]; exact List.mem_cons_self v vs
          · exact List.mem_cons_of_mem v h
        rw [← hv] at hmem
        obtain ⟨fg, hfg, hver⟩ := List.mem_map.mp hmem
        have := List.mem_filter.mp hfg
        exact ⟨fg, this.1, by simpa using this.2, hver⟩
      · intro fg hmem hname
        have hf : fg ∈ md.featuregroups.filter (fun fg => fg.name == name) :=
          List.mem_filter.mpr ⟨hmem, by simp [hname]⟩
        have hvm : fg.version ∈ (md.featuregroups.filter
            (fun fg => fg.name == name)).map (fun fg => fg.version) :=
          List.mem_map_of_mem _ hf
        rw [hv] at hvm
        rcases List.mem_cons.mp hvm with h | h
        · rw [h]; exact le_foldl_max_init vs v
        · exact le_foldl_max_of_mem vs v fg.version h
    · intro hnone
      exfalso
      have : v ∈ (md.featuregroups.filter (fun fg => fg.name == name)).map
          (fun fg => fg.version) := by rw [hv]; exact List.mem_cons_self v vs
      obtain ⟨fg, hfg, _⟩ := List.mem_map.mp this
      have hmf := List.mem_filter.mp hfg
      exact hnone ⟨fg, hmf.1, by simpa using hmf.2⟩

theorem do_get_latest_featuregroup_version_spec_witness :
    do_get_latest_featuregroup_version missingFgName sampleMetadata = 0 :=
  (do_get_latest_featuregroup_version_spec missingFgName sampleMetadata).2 (by decide)

/-! ### Id lookups -/

/-- Claim C6: `_get_featuregroup_id` returns the id of a feature group of
the snapshot whose name and version both match, and raises
`FeaturegroupNotFound` exactly when no feature group with that
`(name, version)` pair exists in the snapshot used for the lookup; the
analogous statement holds for `_get_training_dataset_id` with
`TrainingDatasetNotFound`. -/
theorem id_lookup_spec (md : FeaturestoreMetadata) (n : String) (v : Nat) :
    ((∀ i, get_featuregroup_id md n v = .ok i →
        ∃ fg ∈ md.featuregroups, fg.name = n ∧ fg.version = v ∧ fg.id = i) ∧
      (get_featuregroup_id md n v = .error .featuregroupNotFound ↔
        ¬ ∃ fg ∈ md.featuregroups, fg.name = n ∧ fg.version = v)) ∧
    ((∀ i, get_training_dataset_id md n v = .ok i →
        ∃ td ∈ md.training_datasets, td.name = n ∧ td.version = v ∧ td.id = i) ∧
      (get_training_dataset_id md n v = .error .trainingDatasetNotFound ↔
        ¬ ∃ td ∈ md.training_datasets, td.name = n ∧ td.version = v)) := by
  constructor
  · simp only [get_featuregroup_id]
    cases hf : md.featuregroups.find? (fun fg => fg.name == n && fg.version == v) with
    | none =>
      have hnone := List.find?_eq_none.mp hf
      constructor
      · intro i h
        cases h
      · simp only [true_iff]
        rintro ⟨fg, hmem, hname, hver⟩
        exact hnone fg hmem (by simp [hname, hver])
    | some fg =>
      have hp := List.find?_some hf
      have hmem := List.mem_of_find?_eq_some hf
      simp only [Bool.and_eq_true, beq_iff_eq] at hp
      constructor
      · intro i h
        cases h
        exact ⟨fg, hmem, hp.1, hp.2, rfl⟩
      · constructor
        · intro h
          cases h
        · intro h
          exact absurd ⟨fg, hmem, hp.1, hp.2⟩ h
  · simp only [get_training_dataset_id]
    cases hf : md.training_datasets.find? (fun td => td.name == n && td.version == v) with
    | none =>
      have hnone := List.find?_eq_none.mp hf
      constructor
      · intro i h
        cases h
      · simp only [true_iff]
        rintro ⟨td, hmem, hname, hver⟩
        exact hnone td hmem (by simp [hname, hver])
    | some td =>
      have hp := List.find?_some hf
      have hmem := List.mem_of_find?_eq_some hf
      simp only [Bool.and_eq_true, beq_iff_eq] at hp
      constructor
      · intro i h
        cases h
        exact ⟨td, hmem, hp.1, hp.2, rfl⟩
      · constructor
        · intro h
          cases h
        · intro h
          exact absurd ⟨td, hmem, hp.1, hp.2⟩ h

theorem id_lookup_spec_witness :
    get_featuregroup_id sampleMetadata missingFgName 1 = .error .featuregroupNotFound :=
  (id_lookup_spec sampleMetadata missingFgName 1).1.2.mpr (by decide)

/-! ### Partitions operation -/

/-- Claim C2: when the feature group found in the snapshot for the requested
name and version has the on-demand type, `_do_get_featuregroup_partitions`
raises `CannotGetPartitionsOfOnDemandFeatureGroup`; when the found feature
group has the cached type (the two type tags being distinct), it never
raises that exception — for every snapshot, name and version. -/
theorem do_get_featuregroup_partitions_spec (featuregroup_name : String)
    (md : FeaturestoreMetadata) (v : Nat) (fg : Featuregroup)
    (hfind : find_featuregroup md.featuregroups featuregroup_name v = .ok fg) :
    (fg.featuregroup_type = md.settings.on_demand_featuregroup_type →
      do_get_featuregroup_partitions featuregroup_name md v =
        .error .cannotGetPartitionsOfOnDemandFeatureGroup) ∧
    (fg.featuregroup_type = md.settings.cached_featuregroup_type →
      md.settings.cached_featuregroup_type ≠ md.settings.on_demand_featuregroup_type →
      do_get_featuregroup_partitions featuregroup_name md v ≠
        .error .cannotGetPartitionsOfOnDemandFeatureGroup) := by
  constructor
  · intro htype
    simp [do_get_featuregroup_partitions, hfind, htype]
  · intro htype hne
    have hbeq : (fg.featuregroup_type ==
        md.settings.on_demand_featuregroup_type) = false := by
      rw [htype]
      simpa using hne
    simp [do_get_featuregroup_partitions, hfind, hbeq]

theorem do_get_featuregroup_partitions_spec_witness :
    do_get_featuregroup_partitions ("trx_graph_summary_features") sampleMetadata 1 =
      .error .cannotGetPartitionsOfOnDemandFeatureGroup :=
  (do_get_featuregroup_partitions_spec ("trx_graph_summary_features")
    sampleMetadata 1 fgTrxGraph rfl).1 rfl

/-! ### Join-key inference -/

/-- Claim C5: for a multi-group query with no explicit join key, the planner
selects a feature name that is marked primary in every participating
feature group, and raises `InferJoinKeyError` if and only if no such common
primary feature name exists. -/
theorem inferJoinKey_spec (fgs : List Featuregroup) (hne : fgs ≠ []) :
    (∀ n, inferJoinKey fgs = .ok n → ∀ fg ∈ fgs, n ∈ primaryFeatureNames fg) ∧
    (inferJoinKey fgs = .error .inferJoinKeyError ↔
      ¬ ∃ n, ∀ fg ∈ fgs, n ∈ primaryFeatureNames fg) := by
  cases fgs with
  | nil => exact absurd rfl hne
  | cons fg rest =>
    simp only [inferJoinKey]
    cases hf : (primaryFeatureNames fg).filter
        (fun n => rest.all (fun g => (primaryFeatureNames g).contains n)) with
    | nil =>
      constructor
      · intro n h
        cases h
      · simp only [true_iff]
        rintro ⟨n, hall⟩
        have hmemf : n ∈ (primaryFeatureNames fg).filter
            (fun n => rest.all (fun g => (primaryFeatureNames g).contains n)) := by
          apply List.mem_filter.mpr
          refine ⟨hall fg (List.mem_cons_self fg rest), ?_⟩
          apply List.all_eq_true.mpr
          intro g hg
          have := hall g (List.mem_cons_of_mem fg hg)
          simpa [List.contains] using List.elem_iff.mpr this
        rw [hf] at hmemf
        cases hmemf
    | cons n ns =>
      constructor
      · intro n' h
        cases h
        intro g hg
        have hmemf : n ∈ (primaryFeatureNames fg).filter
            (fun n => rest.all (fun g => (primaryFeatureNames g).contains n)) := by
          rw [hf]
          exact List.mem_cons_self n ns
        have hsplit := List.mem_filter.mp hmemf
        rcases List.mem_cons.mp hg with rfl | hg
        · exact hsplit.1
        · have hall := List.all_eq_true.mp hsplit.2 g hg
          exact List.elem_iff.mp (by simpa [List.contains] using hall)
      · constructor
        · intro h
          cases h
        · intro h
          exfalso
          apply h
          refine ⟨n, ?_⟩
          intro g hg
          have hmemf : n ∈ (primaryFeatureNames fg).filter
              (fun n => rest.all (fun g => (primaryFeatureNames g).contains n)) := by
            rw [hf]
            exact List.mem_cons_self n ns
          have hsplit := List.mem_filter.mp hmemf
          rcases List.mem_cons.mp hg with rfl | hg
          · exact hsplit.1
          · have hall := List.all_eq_true.mp hsplit.2 g hg
            exact List.elem_iff.mp (by simpa [List.contains] using hall)

theorem inferJoinKey_spec_witness :
    joinKeyX ∈ primaryFeatureNames fgJoinA ∧ joinKeyX ∈ primaryFeatureNames fgJoinB := by
  have h := (inferJoinKey_spec [fgJoinA, fgJoinB] (by decide)).1 joinKeyX rfl
  exact ⟨h fgJoinA (by decide), h fgJoinB (by decide)⟩

/-! ### Result-column renaming -/

theorem splitOnChar_ne_nil (sep : Char) (l : List Char) : splitOnChar sep l ≠ [] := by
  induction l with
  | nil => simp [splitOnChar]
  | cons c rest ih =>
    by_cases h : c = sep
    · simp [splitOnChar, h]
    · simp only [splitOnChar, h, if_false]
      cases hs : splitOnChar sep rest with
      | nil => exact absurd hs ih
      | cons a t => simp

theorem splitOnChar_head (sep : Char) (l : List Char) :
    (splitOnChar sep l).head? = some (l.takeWhile (fun c => c != sep)) := by
  induction l with
  | nil => rfl
  | cons c rest ih =>
    by_cases h : c = sep
    · subst h
      simp [splitOnChar, List.takeWhile_cons]
    · simp only [splitOnChar, h, if_false]
      cases hs : splitOnChar sep rest with
      | nil => exact absurd hs (splitOnChar_ne_nil sep rest)
      | cons a t =>
        rw [hs] at ih
        simp only [List.head?] at ih
        have ha : a = rest.takeWhile (fun c => c != sep) := by
          injection ih
        simp [List.takeWhile_cons, h, ha]

theorem splitOnChar_of_mem (sep : Char) (l : List Char) (h : sep ∈ l) :
    splitOnChar sep l =
      (l.takeWhile (fun c => c != sep)) ::
        splitOnChar sep ((l.dropWhile (fun c => c != sep)).tail) := by
  induction l with
  | nil => cases h
  | cons c rest ih =>
    by_cases hc : c = sep
    · subst hc
      simp [splitOnChar, List.takeWhile_cons, List.dropWhile_cons]
    · have hrest : sep ∈ rest := by
        rcases List.mem_cons.mp h with h1 | h1
        · exact absurd h1.symm hc
        · exact h1
      simp only [splitOnChar, hc, if_false]
      rw [ih hrest]
      simp [List.takeWhile_cons, List.dropWhile_cons, hc]

/-- Claim C1 (amended): the column renaming applied in `_run_and_log_sql`
maps each column name containing a dot to the segment strictly between the
first dot and the following dot (or the end of the name) — Python
`column.split('.')[1]` — and leaves column names without a dot unchanged. -/
theorem run_and_log_sql_columns_amended (columns : List String) :
    run_and_log_sql_columns columns = columns.map (fun c =>
      if c.data.contains '.' then
        String.mk (((c.data.dropWhile (fun ch => ch != '.')).tail).takeWhile
          (fun ch => ch != '.'))
      else c) := by
  unfold run_and_log_sql_columns
  apply List.map_congr_left
  intro c _
  unfold renameResultColumn
  by_cases h : c.data.contains '.'
  · have hmem : '.' ∈ c.data := List.elem_iff.mp h
    simp only [h, if_true]
    rw [splitOnChar_of_mem '.' c.data hmem, List.getElem!_cons_succ]
    congr 1
    have hh := splitOnChar_head '.' ((c.data.dropWhile (fun ch => ch != '.')).tail)
    cases hs : splitOnChar '.' ((c.data.dropWhile (fun ch => ch != '.')).tail) with
    | nil => exact absurd hs (splitOnChar_ne_nil _ _)
    | cons a t =>
      rw [hs] at hh
      simp only [List.head?] at hh
      have ha : a = ((c.data.dropWhile (fun ch => ch != '.')).tail).takeWhile
          (fun ch => ch != '.') := by
        injection hh
      rw [List.getElem!_cons_zero]
      exact ha
  · simp only [h]
    rw [if_neg (by simp [h]), if_neg (by simp [h])]

/-- Claim C1, counterexample to the statement as written: on a column name
with two dots the renaming keeps the segment after the first dot, not the
suffix after the last dot. -/
theorem renameResultColumn_counterexample :
    renameResultColumn dotDotName ≠ specStripAfterLastDot dotDotName ∧
    renameResultColumn dotDotName = ("b") ∧
    specStripAfterLastDot dotDotName = ("c") := by
  refine ⟨?_, by decide, by decide⟩
  decide

/-! ### Online feature store password and user -/

theorem foldl_channel (pat : List Char) :
    ∀ (args : List (List Char)) (init : List Char),
      args.foldl (fun acc arg => if containsSub pat arg then removeAll pat arg else acc)
          init =
        match args.reverse.find? (containsSub pat) with
        | some a => removeAll pat a
        | none => init := by
  intro args
  induction args with
  | nil => intro init; rfl
  | cons a as ih =>
    intro init
    rw [List.foldl_cons, ih, List.reverse_cons, List.find?_append]
    cases hf : as.reverse.find? (containsSub pat) with
    | some b => rfl
    | none =>
      rw [Option.none_or]
      cases hp : containsSub pat a <;> simp [List.find?_cons, hp]

theorem foldl_prod {α β γ : Type} (f : α → γ → α) (g : β → γ → β) :
    ∀ (l : List γ) (a : α) (b : β),
      l.foldl (fun acc x => (f acc.1 x, g acc.2 x)) (a, b) = (l.foldl f a, l.foldl g b) := by
  intro l
  induction l with
  | nil => intro a b; rfl
  | cons x xs ih =>
    intro a b
    rw [List.foldl_cons, List.foldl_cons, List.foldl_cons]
    exact ih (f a x) (g b x)

/-- Claim C10: `_get_online_feature_store_password_and_user` splits the
connector arguments on commas, takes as password the last fragment
containing `password=` with every occurrence of `password=` removed, and as
user the last fragment containing `user=` with every occurrence of `user=`
removed; it raises `OnlineFeaturestorePasswordOrUserNotFound` exactly when
the password or the user extracted this way is empty, and otherwise returns
the pair. -/
theorem get_online_password_and_user_spec (arguments : String) :
    (get_online_feature_store_password_and_user arguments =
        .error .onlineFeaturestorePasswordOrUserNotFound ↔
      (lastExtract pwPat (splitOnChar ',' arguments.data) = [] ∨
        lastExtract userPat (splitOnChar ',' arguments.data) = [])) ∧
    (lastExtract pwPat (splitOnChar ',' arguments.data) ≠ [] →
      lastExtract userPat (splitOnChar ',' arguments.data) ≠ [] →
      get_online_feature_store_password_and_user arguments =
        .ok (String.mk (lastExtract pwPat (splitOnChar ',' arguments.data)),
          String.mk (lastExtract userPat (splitOnChar ',' arguments.data)))) := by
  have hrw : (splitOnChar ',' arguments.data).foldl
      (fun (acc : List Char × List Char) arg =>
        (if containsSub pwPat arg then removeAll pwPat arg else acc.1,
         if containsSub userPat arg then removeAll userPat arg else acc.2)) ([], []) =
      (lastExtract pwPat (splitOnChar ',' arguments.data),
        lastExtract userPat (splitOnChar ',' arguments.data)) := by
    rw [foldl_prod
      (fun acc arg => if containsSub pwPat arg then removeAll pwPat arg else acc)
      (fun acc arg => if containsSub userPat arg then removeAll userPat arg else acc)]
    rw [foldl_channel, foldl_channel]
    rfl
  simp only [get_online_feature_store_password_and_user]
  rw [hrw]
  by_cases hp : lastExtract pwPat (splitOnChar ',' arguments.data) = []
  · simp [hp]
  · by_cases hu : lastExtract userPat (splitOnChar ',' arguments.data) = []
    · obtain ⟨b, L, hbl⟩ := List.exists_cons_of_ne_nil hp
      simp [hp, hu, hbl]
    · obtain ⟨b, L, hbl⟩ := List.exists_cons_of_ne_nil hp
      obtain ⟨b2, L2, hbl2⟩ := List.exists_cons_of_ne_nil hu
      rw [hbl, hbl2]
      simp [← hbl, ← hbl2, hp, hu]

theorem get_online_password_and_user_spec_witness :
    get_online_feature_store_password_and_user connectorArgs = .ok (secretStr, aliceStr) := by
  have h := (get_online_password_and_user_spec connectorArgs).2 (by decide) (by decide)
  have h1 : String.mk (lastExtract pwPat (splitOnChar ',' connectorArgs.data)) =
      secretStr := by decide
  have h2 : String.mk (lastExtract userPat (splitOnChar ',' connectorArgs.data)) =
      aliceStr := by decide
  rw [h, h1, h2]

/-! ### The try-with-cache / refresh-and-retry pattern -/

/-- Claim C4 (amended): `get_feature`, `get_features`, `get_featuregroup`
and `get_featuregroup_partitions` first attempt with the cached snapshot;
when that attempt succeeds the cache is untouched, and when it raises they
force exactly one metadata refresh, attempt exactly once more and return
the second outcome unchanged.  `update_featuregroup_stats` follows the same
retry shape, except that when the second attempt also raises, the second
exception is replaced by `StatisticsComputationError` rather than being
propagated unchanged. -/
theorem retry_pattern_spec {α : Type} (op : FeaturestoreMetadata → Except PyErr α)
    (uop : FeaturestoreMetadata → Except PyErr Unit)
    (fetch : String → FeaturestoreMetadata) (featurestore : String)
    (s : CacheState) (m : FeaturestoreMetadata) (hc : s.cache = some m) :
    (∀ a, op m = .ok a →
      tryWithCachedThenRefetch op fetch featurestore s = (.ok a, s)) ∧
    (∀ e, op m = .error e →
      tryWithCachedThenRefetch op fetch featurestore s =
        (op (fetch featurestore),
          ⟨some (fetch featurestore), s.fetchCount + 1⟩)) ∧
    (∀ e e2, uop m = .error e → uop (fetch featurestore) = .error e2 →
      update_featuregroup_stats uop fetch featurestore s =
        (.error .statisticsComputationError,
          ⟨some (fetch featurestore), s.fetchCount + 1⟩)) := by
  obtain ⟨c, fc⟩ := s
  simp only at hc
  subst hc
  refine ⟨?_, ?_, ?_⟩
  · intro a ha
    simp [tryWithCachedThenRefetch, get_featurestore_metadata, ha]
  · intro e he
    simp [tryWithCachedThenRefetch, get_featurestore_metadata, he]
  · intro e e2 he he2
    simp [update_featuregroup_stats, get_featurestore_metadata, he, he2]

theorem retry_pattern_spec_witness :
    tryWithCachedThenRefetch
        (fun md => if md.featuregroups.isEmpty then .error PyErr.featuregroupNotFound
          else .ok md.featuregroups.length)
        (fun _ => sampleMetadata) storeA ⟨some emptyMetadata, 1⟩ =
      (.ok 2, ⟨some sampleMetadata, 2⟩) :=
  (retry_pattern_spec
    (fun md => if md.featuregroups.isEmpty then .error PyErr.featuregroupNotFound
      else .ok md.featuregroups.length)
    (fun _ => .error PyErr.valueError)
    (fun _ => sampleMetadata) storeA ⟨some emptyMetadata, 1⟩ emptyMetadata
    rfl).2.1 PyErr.featuregroupNotFound rfl

/-- Claim C4, counterexample to the statement as written: when both attempts
of `update_featuregroup_stats` raise, the caller receives
`StatisticsComputationError`, not the second exception unchanged. -/
theorem update_featuregroup_stats_counterexample :
    (update_featuregroup_stats (fun _ => .error PyErr.featuregroupNotFound)
        (fun _ => sampleMetadata) storeA ⟨some emptyMetadata, 0⟩).1 =
      .error PyErr.statisticsComputationError ∧
    PyErr.statisticsComputationError ≠ PyErr.featuregroupNotFound := by
  exact ⟨rfl, by decide⟩

/-! ### Metadata validation in create_featuregroup -/

/-- Claim C7: in `create_featuregroup` the validation call passes the
dataframe's `dtypes` where `_validate_metadata` expects the description and
the description string where it expects the settings object, so the
attribute access on the settings parameter raises `AttributeError` for
every feature group name — the documented `ValueError` regex validation is
never performed.  The second conjunct shows the callee itself does raise
`ValueError` for a name its settings regex rejects, which is what the call
was intended to do. -/
theorem create_featuregroup_validation_spec (featuregroup : String)
    (dtypes : List (String × String)) (description : String) :
    create_featuregroup_validation_call featuregroup dtypes description =
      .error .attributeError ∧
    (∀ st : ValidationSettings, st.featurestore_regex featuregroup = false →
      validate_metadata featuregroup (.pyStr description) (.pySettings st) =
        .error .valueError) := by
  constructor
  · rfl
  · intro st hst
    simp [validate_metadata, getattrFeaturestoreRegex, hst]

theorem create_featuregroup_validation_spec_witness :
    validate_metadata sampleFgName (.pyStr ("")) (.pySettings alwaysFalseSettings) =
      .error .valueError :=
  (create_featuregroup_validation_spec sampleFgName [] "").2 alwaysFalseSettings rfl

end HopsworksSdk
